import Mathlib

/-!
Verification of the image-replacement core of `word_pdf_get_img`.

The Python sources are shallowly embedded as executable Lean definitions:
* paths, reference tokens and file names are `List Char` (Python `str`,
  ASCII-relevant parts of `str.lower()` / `\d` are modelled exactly);
* ZIP containers are ordered lists of entries `(path, payload)`, a payload
  being a byte list;
* external libraries (PIL decoding/encoding, codecs) enter as explicit
  function parameters, while every piece of control flow — filtering,
  sorting, regex-style parsing, bounds checks, dict updates, the patch
  loop, the CSV row walk, the encoding-trial loops, the temp-file
  handling — is translated from the Python functions named next to each
  definition.
-/

namespace WordImg

/-- Paths, tokens and file names: Python `str` values. -/
abbrev Path : Type := List Char

/-- Byte payloads (each byte a `Nat`; actual byte bounds are irrelevant to
the claims). -/
abbrev Bytes : Type := List Nat

/-- Model of the regex class `\d` restricted to ASCII, and of
`str.isdigit` on ASCII input: code points 48–57. -/
def isDigitC (c : Char) : Bool := 48 ≤ c.toNat && c.toNat ≤ 57

/-- Numeric value of an ASCII digit. -/
def digitVal (c : Char) : Nat := c.toNat - 48

/-- Value of a digit run, as `int(...)` computes it for a decimal string. -/
def digitsToNat (ds : List Char) : Nat :=
  ds.foldl (fun n c => 10 * n + digitVal c) 0

/-- Model of Python `str.lower()` on the ASCII range: shift A–Z to a–z,
leave everything else unchanged. -/
def asciiLower (c : Char) : Char :=
  if 65 ≤ c.toNat ∧ c.toNat ≤ 90 then Char.ofNat (c.toNat + 32) else c

/-- `str.lower()` applied to a whole string. -/
def lowerL (s : Path) : Path := s.map asciiLower

/-- `s.startswith(p)` on strings. -/
def startsWithL (s p : Path) : Bool :=
  match s, p with
  | _, [] => true
  | [], _ :: _ => false
  | a :: as, b :: bs => a = b && startsWithL as bs

/-- `s.endswith(p)` on strings (used by `ZipInfo.is_dir`, which is
`filename.endswith('/')`). -/
def endsWithL (s p : Path) : Bool := startsWithL s.reverse p.reverse

/-- `os.path.basename`: the part after the last `'/'`. -/
def basenameL (p : Path) : Path := ((p.reverse).takeWhile (fun c => !(c = '/'))).reverse

/-- Python string `<=`: lexicographic comparison by code point. -/
def charsLe : Path → Path → Bool
  | [], _ => true
  | _ :: _, [] => false
  | a :: as, b :: bs => if a = b then charsLe as bs else a.toNat ≤ b.toNat

/-- Insert into a sorted list, keeping earlier-inserted equal keys first
(stability as in Python `list.sort`). -/
def insertLe (x : Path) : List Path → List Path
  | [] => [x]
  | y :: ys => if charsLe y x then y :: insertLe x ys else x :: y :: ys

/-- Model of Python `list.sort()` under code-point comparison
(`media_files.sort()` in `replace_images_in_docx`). -/
def sortPaths : List Path → List Path
  | [] => []
  | x :: xs => insertLe x (sortPaths xs)

/-- One member of a ZIP container: entry name and payload bytes.
Directory markers are entries whose path ends in `'/'`
(`ZipInfo.is_dir()`). -/
structure Entry where
  path : Path
  payload : Bytes
deriving DecidableEq, Repr

/-! ### Image normalizer (`prepare_replacement_image` in
`image_replacer.py` / `replace_processor.py`) -/

/-- PIL color modes distinguished by the sources (`img.mode in
('RGBA', 'LA', 'P')`); every other mode behaves like `RGB` there. -/
inductive PMode where
  | RGB | RGBA | LA | P | L
deriving DecidableEq, Repr

/-- A decoded PIL image: mode, pixel dimensions, color content and alpha
content. For mode `P` the `rgb` field holds the palette-resolved colors,
which is what PIL's `convert('RGB')` produces from the index data. -/
structure PImage where
  mode : PMode
  width : Nat
  height : Nat
  rgb : List (Nat × Nat × Nat)
  alpha : List Nat
deriving DecidableEq, Repr

/-- PIL `img.convert('RGB')`: same dimensions, same color content, the
alpha channel is dropped (PIL discards it, it is not composited). -/
def convertRGB (img : PImage) : PImage :=
  { img with mode := PMode.RGB, alpha := [] }

/-- The file system and decoder visible to the normalizer:
`os.path.exists` and `PIL.Image.open` (`none` = the open/decode raises). -/
structure FS where
  pathExists : Path → Bool
  decode : Path → Option PImage

/-- `prepare_replacement_image(image_path)` from `image_replacer.py`
lines 104–132 (identical in `replace_processor.py` lines 117–145):
missing path → `None`; undecodable bytes → exception caught → `None`;
otherwise convert to RGB when the mode is RGBA/LA/P and re-encode as
JPEG quality 95 (`enc` is the JPEG encoder, an external PIL routine). -/
def prepareReplacementImage (fs : FS) (enc : PImage → Bytes) (p : Path) :
    Option Bytes :=
  if fs.pathExists p = false then none
  else
    match fs.decode p with
    | none => none
    | some img =>
        let img2 :=
          if img.mode = PMode.RGBA ∨ img.mode = PMode.LA ∨ img.mode = PMode.P
          then convertRGB img else img
        some (enc img2)

/-! ### Reference parsing and catalog lookup -/

/-- `get_image_index(target_image)` from `replace_processor.py` lines
97–115 (identical in `image_replacer.py` lines 84–102):
`re.match(r'image(\d+)', target_image.lower())` anchors at the start
only, so it matches a *prefix* `image<digits>` of the lowered token and
greedily takes the leading digit run; the 1-based number is converted to
a 0-based index, any non-matching token gives `-1`. -/
def getImageIndex (target : Path) : Int :=
  match lowerL target with
  | 'i' :: 'm' :: 'a' :: 'g' :: 'e' :: rest =>
      let ds := rest.takeWhile isDigitC
      if ds = [] then -1 else (digitsToNat ds : Int) - 1
  | _ => -1

/-- `get_image_index_by_filename(media_files, target_filename)` from
`image_replacer.py` lines 313–331: linear scan, comparing
`os.path.basename(media_file) == target_filename` (case-sensitive),
first hit wins, `-1` when absent. -/
def getImageIndexByFilename (media : List Path) (target : Path) : Int :=
  go media 0
where
  go : List Path → Nat → Int
    | [], _ => -1
    | f :: fs, i => if basenameL f = target then (i : Int) else go fs (i + 1)

/-- The media listing of `replace_images_in_docx` (`replace_processor.py`
lines 176–181, identically `image_replacer.py` lines 165–170): collect
the names of non-directory entries under `word/media/` in native archive
order, then `media_files.sort()` — the list is *sorted by name* before
any lookup. -/
def mediaRoot : Path := "word/media/".data

def mediaFiles (entries : List Entry) : List Path :=
  sortPaths ((entries.map Entry.path).filter
    (fun p => startsWithL p mediaRoot && !(endsWithL p ('/' :: []))))

/-- The per-target ordinal resolution step of `replace_processor.py`
lines 191–202: parse the token, reject index `-1` or one at/after the
end of the sorted media list, otherwise pick `media_files[image_index]`. -/
def resolveOrdinalTarget (media : List Path) (target : Path) : Option Path :=
  let idx := getImageIndex target
  if idx = -1 ∨ (media.length : Int) ≤ idx then none
  else some (media.getD idx.toNat [])

/-- The per-target filename resolution step of `image_replacer.py`
lines 180–191: look the token up as a literal file name, reject `-1`,
otherwise pick `media_files[image_index]`. -/
def resolveFilenameTarget (media : List Path) (target : Path) : Option Path :=
  let idx := getImageIndexByFilename media target
  if idx = -1 then none
  else some (media.getD idx.toNat [])

/-! ### The replacement-data dictionary and the patch loop -/

/-- One `(target, replacement_path)` request from an instruction. -/
structure Rep where
  target : Path
  replPath : Path
deriving DecidableEq, Repr

/-- Python `dict` assignment `d[k] = v`: overwrite in place if the key is
present, append otherwise (insertion order preserved). -/
def setKey (m : List (Path × Bytes)) (k : Path) (v : Bytes) :
    List (Path × Bytes) :=
  match m with
  | [] => [(k, v)]
  | (k', v') :: rest =>
      if k' = k then (k', v) :: rest else (k', v') :: setKey rest k v

/-- Python `k in d` / `d[k]` on the same dictionary. -/
def lookupA (m : List (Path × Bytes)) (k : Path) : Option Bytes :=
  match m with
  | [] => none
  | (k', v) :: rest => if k' = k then some v else lookupA rest k

/-- The `replacement_data` building loop of `replace_processor.py` lines
185–207: for each request, resolve the token by ordinal against the
sorted media list (`continue` on failure), normalize the source image
(`continue` when it yields `None`), then store the bytes under the
resolved entry name. -/
def buildReplacementData (media : List Path) (reps : List Rep) (fs : FS)
    (enc : PImage → Bytes) : List (Path × Bytes) :=
  reps.foldl
    (fun acc rep =>
      match resolveOrdinalTarget media rep.target with
      | none => acc
      | some tf =>
          match prepareReplacementImage fs enc rep.replPath with
          | none => acc
          | some d => setKey acc tf d)
    []

/-- The analogous loop of `image_replacer.py` lines 174–196, which
resolves tokens by literal file name instead. -/
def buildReplacementDataIR (media : List Path) (reps : List Rep) (fs : FS)
    (enc : PImage → Bytes) : List (Path × Bytes) :=
  reps.foldl
    (fun acc rep =>
      match resolveFilenameTarget media rep.target with
      | none => acc
      | some tf =>
          match prepareReplacementImage fs enc rep.replPath with
          | none => acc
          | some d => setKey acc tf d)
    []

/-- `original_zip.read(name)`: payload of the first entry with that name. -/
def readEntry (entries : List Entry) (p : Path) : Option Bytes :=
  (entries.find? (fun e => e.path = p)).map Entry.payload

/-- The output-writing loop of `replace_processor.py` lines 209–219
(identically `image_replacer.py` lines 198–208): walk
`original_zip.filelist` in order; an entry whose name is a
`replacement_data` key is written with the new bytes, every other entry
is re-read by name and copied. -/
def applyPatch (entries : List Entry) (repl : List (Path × Bytes)) :
    List Entry :=
  entries.map
    (fun item =>
      match lookupA repl item.path with
      | some d => { path := item.path, payload := d }
      | none => { path := item.path, payload := (readEntry entries item.path).getD [] })

/-- The whole patch path of `replace_images_in_docx` in
`replace_processor.py` (happy path, no I/O exception — the temp-file
bookkeeping is modelled separately below): list the media, resolve and
normalize each request, emit the patched container. -/
def replaceImagesInDocxRP (entries : List Entry) (reps : List Rep)
    (fs : FS) (enc : PImage → Bytes) : List Entry :=
  applyPatch entries (buildReplacementData (mediaFiles entries) reps fs enc)

/-- Same for `image_replacer.py`'s `replace_images_in_docx`, which uses
the filename resolver. -/
def replaceImagesInDocxIR (entries : List Entry) (reps : List Rep)
    (fs : FS) (enc : PImage → Bytes) : List Entry :=
  applyPatch entries (buildReplacementDataIR (mediaFiles entries) reps fs enc)

/-! ### Order loader (`load_replacement_orders`, `image_replacer.py`
lines 11–82) -/

/-- One CSV cell as pandas sees it: `none` is NaN (missing). -/
abbrev Cell : Type := Option Path

/-- One CSV data row. -/
abbrev Row : Type := List Cell

/-- The cell test of line 67–68: `not pd.isna(x) and x != ''`. -/
def cellValid : Cell → Bool
  | none => false
  | some s => !(s = [])

/-- The string inside a valid cell. -/
def cellVal : Cell → Path
  | none => []
  | some s => s

/-- The pair walk of lines 61–72: `for col_idx in range(1, len(row), 2)`
over the cells after column 0, keeping `(target, path)` only when
`col_idx + 1 < len(row)` and both cells pass `cellValid`. -/
def pairsAux : List Cell → List (Path × Path)
  | a :: b :: rest =>
      (if cellValid a && cellValid b then [(cellVal a, cellVal b)] else [])
        ++ pairsAux rest
  | _ => []

def pairsOfRow (row : Row) : List (Path × Path) := pairsAux (row.drop 1)

/-- One parsed `ReplacementInstruction`. -/
structure Order where
  filePath : Path
  replacements : List (Path × Path)
deriving DecidableEq, Repr

/-- The literal header label tested at line 45 (`'ファイルパス'`). -/
def headerLabel : Path := "ファイルパス".data

/-- The row loop of lines 47–77: skip a row whose column 0 is NaN or
empty, collect its pairs, keep the row as an instruction only when at
least one pair survived. -/
def processRows : List Row → List Order
  | [] => []
  | row :: rest =>
      match row.headD none with
      | none => processRows rest
      | some fp =>
          if fp = [] then processRows rest
          else
            let ps := pairsOfRow row
            if ps = [] then processRows rest
            else { filePath := fp, replacements := ps } :: processRows rest

/-- `load_replacement_orders` on an already-decoded table: line 45 drops
the first row exactly when its column 0 is the literal header label,
then the row loop runs. (An empty table raises in Python at line 45 and
the handler returns `[]`; here the empty table yields `[]` directly.) -/
def loadOrders (table : List Row) : List Order :=
  let rows :=
    if (table.headD []).headD none = some headerLabel then table.drop 1
    else table
  processRows rows

/-! ### Encoding trials -/

/-- Candidate list of `image_replacer.py` line 27. -/
def encodingsIR : List String :=
  ["cp932", "shift-jis", "utf-8", "utf-8-sig", "latin1"]

/-- Candidate list of `image_replacer_v2.py` line 20. -/
def encodingsV2 : List String :=
  ["cp932", "shift_jis", "utf-8", "utf-8-sig", "euc-jp", "iso-2022-jp"]

/-- The trial loop shared by both files: first candidate that succeeds. -/
def firstOk (ok : String → Bool) : List String → Option String
  | [] => none
  | e :: es => if ok e then some e else firstOk ok es

/-- `detect_encoding` from `image_replacer_v2.py` lines 10–32: try each
candidate (`ok e` = the whole file decodes under `e`); when *none*
succeeds, print a warning and return `'utf-8'` anyway. -/
def detectEncoding (ok : String → Bool) : String :=
  match firstOk ok encodingsV2 with
  | some e => e
  | none => "utf-8"

/-- The read loop of `image_replacer.py` lines 29–42: `read e` models
`pd.read_csv(path, encoding=e, header=None)` (`none` = exception). The
first successful read is kept. -/
def firstRead (read : String → Option (List Row)) :
    List String → Option (List Row)
  | [] => none
  | e :: es =>
      match read e with
      | some df => some df
      | none => firstRead read es

/-- `load_replacement_orders` end to end: when every encoding fails the
function prints a message and returns the (empty) order list; otherwise
the decoded table is parsed. -/
def loadReplacementOrders (read : String → Option (List Row)) : List Order :=
  match firstRead read encodingsIR with
  | none => []
  | some df => loadOrders df

/-! ### The fixed-slot CSV loader (`load_replacement_orders_from_csv`,
`replace_processor.py` lines 11–95) -/

/-- One pair slot of `load_replacement_orders_from_csv`
(`replace_processor.py` lines 58–85 write the three slots out
literally; slot `i` covers columns `(2*i+1, 2*i+2)`): the condition is
`len(row) > 2*i+1 and not pd.isna(row.iloc[2*i+1]) and not
pd.isna(row.iloc[2*i+2])`, short-circuit left to right, followed by
`if target_image and replacement_image: append`. When column `2*i+1`
holds a non-NaN value and column `2*i+2` is past the row's width, the
second `iloc` raises `IndexError` — modelled as `none`. -/
def pairSlotCsv (row : Row) (i : Nat) : Option (List (Path × Path)) :=
  if row.length ≤ 2 * i + 1 then some []
  else
    match row[2 * i + 1]? with
    | none => some []
    | some c1 =>
        match c1 with
        | none => some []
        | some s1 =>
            match row[2 * i + 2]? with
            | none => none
            | some c2 =>
                match c2 with
                | none => some []
                | some s2 =>
                    if s1 ≠ [] ∧ s2 ≠ [] then some [(s1, s2)] else some []

/-- The pairs one row contributes in
`load_replacement_orders_from_csv`: exactly the slots at columns
`(1,2)`, `(3,4)` and `(5,6)` are checked — nothing beyond column 6 is
ever read. An `IndexError` in any slot propagates. -/
def rowPairsCsv (row : Row) : Option (List (Path × Path)) :=
  match pairSlotCsv row 0 with
  | none => none
  | some p0 =>
      match pairSlotCsv row 1 with
      | none => none
      | some p1 =>
          match pairSlotCsv row 2 with
          | none => none
          | some p2 => some (p0 ++ p1 ++ p2)

/-- The row loop of `load_replacement_orders_from_csv` (lines 45–90):
skip a row whose column 0 is NaN or empty, collect its fixed-slot
pairs, keep the row only when at least one pair survived. The whole
loop runs inside one `try`: an `IndexError` escapes it, so the rows
already accumulated are returned and every remaining row is dropped —
modelled by returning `[]` for the failing suffix. -/
def processRowsCsv : List Row → List Order
  | [] => []
  | row :: rest =>
      match row.headD none with
      | none => processRowsCsv rest
      | some fp =>
          if fp = [] then processRowsCsv rest
          else
            match rowPairsCsv row with
            | none => []
            | some ps =>
                if ps = [] then processRowsCsv rest
                else { filePath := fp, replacements := ps } :: processRowsCsv rest

/-- `load_replacement_orders_from_csv` on an already-decoded table:
`pd.read_csv` is called with its default `header` (line 31), so the
first file row is always consumed as column names — there is no
label test. (An empty file raises in `read_csv` and the handler
returns `[]`; here the empty table yields `[]` directly.) -/
def loadOrdersCsv (table : List Row) : List Order :=
  processRowsCsv (table.drop 1)

/-! ### The structure-based pipeline (`image_replacer_v2.py`) -/

/-- `os.path.splitext(p)[1]`: the suffix from the last dot of the final
path component, where leading dots of that component never start an
extension (so `.png` as a whole name has no extension). -/
def splitextExt (p : Path) : Path :=
  let b := basenameL p
  let core := b.dropWhile (fun c => c = '.')
  let r := core.reverse
  let afterR := r.takeWhile (fun c => !(c = '.'))
  if afterR.length = r.length then [] else '.' :: afterR.reverse

/-- `replace_image_in_structure(extracted_dir, image_name,
replacement_path)` from `image_replacer_v2.py` lines 108–159, over a
working directory modelled as its file list: the target must exist at
`word/media/<image_name>`, the replacement file must exist and decode;
the image is converted to RGB when its mode is RGBA/LA/P and saved over
the target — JPEG (quality 95) for `.jpg`/`.jpeg`, PNG for `.png`, JPEG
otherwise, dispatching on the lower-cased extension of `image_name`.
`none` models the `False` return. -/
def replaceImageInStructure (fs : FS) (encJ encP : PImage → Bytes)
    (struct : List Entry) (imageName : Path) (replPath : Path) :
    Option (List Entry) :=
  let target := mediaRoot ++ imageName
  if (struct.find? (fun e => e.path = target)).isNone then none
  else if fs.pathExists replPath = false then none
  else
    match fs.decode replPath with
    | none => none
    | some img =>
        let img2 :=
          if img.mode = PMode.RGBA ∨ img.mode = PMode.LA ∨ img.mode = PMode.P
          then convertRGB img else img
        let ext := lowerL (splitextExt imageName)
        let data :=
          if ext = ".jpg".data ∨ ext = ".jpeg".data then encJ img2
          else if ext = ".png".data then encP img2
          else encJ img2
        some (struct.map
          (fun e => if e.path = target then { path := target, payload := data } else e))

/-- One step of the per-document loop of `process_image_replacements`
(`image_replacer_v2.py` lines 242–247): apply the pair to the working
copy, clearing `replacement_success` on failure. -/
def pairStepV2 (fs : FS) (encJ encP : PImage → Bytes)
    (st : List Entry × Bool) (pr : Path × Path) : List Entry × Bool :=
  match replaceImageInStructure fs encJ encP st.1 pr.1 pr.2 with
  | some s2 => (s2, st.2)
  | none => (st.1, false)

/-- The whole per-document loop: every pair is applied in order even
after a failure. -/
def processPairsV2 (fs : FS) (encJ encP : PImage → Bytes)
    (struct : List Entry) (pairs : List (Path × Path)) :
    List Entry × Bool :=
  pairs.foldl (pairStepV2 fs encJ encP) (struct, true)

/-- Lines 249–260: the document's output archive is rebuilt from the
working copy only when `replacement_success` survived; otherwise no
output is produced for this document. -/
def processDocumentV2 (fs : FS) (encJ encP : PImage → Bytes)
    (struct : List Entry) (pairs : List (Path × Path)) :
    Option (List Entry) :=
  let r := processPairsV2 fs encJ encP struct pairs
  if r.2 then some r.1 else none

/-! ### Temp-file bookkeeping under failure -/

/-- What the file system holds when a patch run returns: the content at
the temporary path and at the final output path (`none` = no file). -/
structure RunOutcome where
  tempAtExit : Option (List Entry)
  outputAtExit : Option (List Entry)
deriving DecidableEq, Repr

/-- The `try` block of `replace_images_in_docx` (both
`replace_processor.py` lines 173–219 and `image_replacer.py` lines
162–208) as far as the temp file is concerned: the new zip is written
entry by entry to `temp_path`; `failAt = some i` models an I/O exception
raised after `i` entries were written (so the temp file holds a prefix),
`failAt = none` a clean run. The Bool flag reports whether the block
raised. -/
def tempAfterTry (entries : List Entry) (repl : List (Path × Bytes))
    (failAt : Option Nat) : Option (List Entry) × Bool :=
  match failAt with
  | none => (some (applyPatch entries repl), false)
  | some i => (some ((applyPatch entries repl).take i), true)

/-- The surrounding control flow (`replace_processor.py` lines 221–231):
on success `shutil.move(temp_path, output_path)` relocates the temp file
to the output path; on an exception the handler unlinks the temp file
and re-raises, the outer handler returns `None`, so the output path is
never written. -/
def replaceDocxRun (entries : List Entry) (repl : List (Path × Bytes))
    (failAt : Option Nat) : RunOutcome :=
  match tempAfterTry entries repl failAt with
  | (_, true) => { tempAtExit := none, outputAtExit := none }
  | (tmp, false) => { tempAtExit := none, outputAtExit := tmp }

/-- `rebuild_docx_from_structure` (`image_replacer_v2.py` lines
161–195) under the same failure model: `zipfile.ZipFile(output_path,
'w')` creates/truncates the file **directly at the output path**; an
exception after `i` files were added leaves that partial archive in
place (the handler only prints and returns `False`). -/
def rebuildDocxRun (files : List Entry) (failAt : Option Nat) :
    Option (List Entry) × Bool :=
  match failAt with
  | none => (some files, true)
  | some i => (some (files.take i), false)

/-- File-system outcome of one document of `process_image_replacements`:
content left at the temporary working directory, content left at the
output path, and the success flag. -/
structure RunOutcomeV2 where
  workDirAtExit : Option (List Entry)
  outputAtExit : Option (List Entry)
  success : Bool
deriving DecidableEq, Repr

/-- One document of `process_image_replacements` (`image_replacer_v2.py`
lines 242–266): apply the pairs to the work dir; rebuild (with possible
failure) only when all succeeded; lines 262–266 remove the work dir on
every path. -/
def processDocumentRunV2 (fs : FS) (encJ encP : PImage → Bytes)
    (struct : List Entry) (pairs : List (Path × Path))
    (failAt : Option Nat) : RunOutcomeV2 :=
  let r := processPairsV2 fs encJ encP struct pairs
  if r.2 then
    match rebuildDocxRun r.1 failAt with
    | (out, ok) => { workDirAtExit := none, outputAtExit := out, success := ok }
  else { workDirAtExit := none, outputAtExit := none, success := false }

/-! ### Concrete collaborators for closed evaluations -/

/-- A file system on which every path exists and decodes to a fixed
1×1 RGB image; used to evaluate the pipelines on concrete inputs. -/
def fsStub : FS :=
  { pathExists := fun _ => true,
    decode := fun _ =>
      some { mode := PMode.RGB, width := 1, height := 1,
             rgb := [(0, 0, 0)], alpha := [] } }

/-- A fixed encoder stub for concrete evaluations. -/
def encStub : PImage → Bytes := fun _ => [7]

/-! ### Spec-shaped pair extraction (for the refinement in C5) -/

/-- The claim's description of pair extraction, written from its words:
the pair of cells at columns `(2*i+1, 2*i+2)` contributes exactly when
both cells are non-empty. Compared below against `pairsOfRow`, which is
translated from the code. -/
def pairAt (row : Row) (i : Nat) : Option (Path × Path) :=
  match row[2 * i + 1]?, row[2 * i + 2]? with
  | some a, some b =>
      if cellValid a && cellValid b then some (cellVal a, cellVal b) else none
  | _, _ => none

/-- `pairAt` shifted past column 0 (helper for the induction). -/
def pairAt2 (cells : List Cell) (i : Nat) : Option (Path × Path) :=
  match cells[2 * i]?, cells[2 * i + 1]? with
  | some a, some b =>
      if cellValid a && cellValid b then some (cellVal a, cellVal b) else none
  | _, _ => none

/-! ## Shared lemmas -/

theorem find_path_of_nodup (es : List Entry) (e : Entry)
    (hnd : (es.map Entry.path).Nodup) (hmem : e ∈ es) :
    es.find? (fun x => x.path = e.path) = some e := by
  induction es with
  | nil => cases hmem
  | cons a tl ih =>
      rcases List.mem_cons.mp hmem with rfl | htl
      · simp [List.find?]
      · have hne : ¬ (a.path = e.path) := by
          intro h
          have : e.path ∈ tl.map Entry.path := List.mem_map_of_mem Entry.path htl
          rw [← h] at this
          exact (List.nodup_cons.mp hnd).1 this
        simp [List.find?, hne]
        exact ih (List.nodup_cons.mp hnd).2 htl

theorem readEntry_of_mem (es : List Entry) (e : Entry)
    (hnd : (es.map Entry.path).Nodup) (hmem : e ∈ es) :
    readEntry es e.path = some e.payload := by
  rw [readEntry, find_path_of_nodup es e hnd hmem]
  rfl

theorem asciiLower_digit (c : Char) (h : isDigitC c = true) :
    asciiLower c = c := by
  simp [isDigitC] at h
  rw [asciiLower, if_neg]
  omega

theorem map_asciiLower_digits (ds : List Char)
    (h : ∀ c ∈ ds, isDigitC c = true) : ds.map asciiLower = ds := by
  induction ds with
  | nil => rfl
  | cons a tl ih =>
      simp only [List.map_cons]
      rw [asciiLower_digit a (h a (List.mem_cons_self a tl)),
        ih (fun c hc => h c (List.mem_cons_of_mem a hc))]

theorem takeWhile_append_digits (xs ys : List Char)
    (h : ∀ c ∈ xs, isDigitC c = true) :
    List.takeWhile isDigitC (xs ++ ys) = xs ++ List.takeWhile isDigitC ys := by
  induction xs with
  | nil => rfl
  | cons a tl ih =>
      simp only [List.cons_append, List.takeWhile_cons,
        h a (List.mem_cons_self a tl),
        ih (fun c hc => h c (List.mem_cons_of_mem a hc))]
      simp

/-- The regex step of `get_image_index`: whenever the lowered token is
`image` followed by a nonempty digit run `ds` and a remainder that does
not begin with a digit, the parse yields exactly `int(ds) - 1`. -/
theorem getImageIndex_decomp (t ds rest : List Char)
    (hl : lowerL t = 'i' :: 'm' :: 'a' :: 'g' :: 'e' :: (ds ++ rest))
    (hne : ds ≠ []) (hds : ∀ c ∈ ds, isDigitC c = true)
    (hrest : rest.takeWhile isDigitC = []) :
    getImageIndex t = (digitsToNat ds : Int) - 1 := by
  rw [getImageIndex, hl]
  simp only [takeWhile_append_digits ds rest hds, hrest, List.append_nil]
  rw [if_neg hne]

theorem lowerL_image_digits (ds : List Char)
    (hds : ∀ c ∈ ds, isDigitC c = true) :
    lowerL ('i' :: 'm' :: 'a' :: 'g' :: 'e' :: ds)
      = 'i' :: 'm' :: 'a' :: 'g' :: 'e' :: (ds ++ []) := by
  have hfix : asciiLower 'i' = 'i' ∧ asciiLower 'm' = 'm' ∧ asciiLower 'a' = 'a'
      ∧ asciiLower 'g' = 'g' ∧ asciiLower 'e' = 'e' := by decide
  simp only [lowerL, List.map_cons, List.append_nil]
  rw [map_asciiLower_digits ds hds, hfix.1, hfix.2.1, hfix.2.2.1,
    hfix.2.2.2.1, hfix.2.2.2.2]

theorem insertLe_perm (x : Path) (l : List Path) :
    List.Perm (insertLe x l) (x :: l) := by
  induction l with
  | nil => exact List.Perm.refl _
  | cons y ys ih =>
      rw [insertLe]
      by_cases h : charsLe y x = true
      · rw [if_pos h]
        exact List.Perm.trans (List.Perm.cons y ih) (List.Perm.swap x y ys)
      · rw [if_neg h]

theorem sortPaths_perm (l : List Path) : List.Perm (sortPaths l) l := by
  induction l with
  | nil => exact List.Perm.refl _
  | cons x xs ih =>
      exact List.Perm.trans (insertLe_perm x (sortPaths xs)) (List.Perm.cons x ih)

theorem char_toNat_inj (a b : Char) (h : a.toNat = b.toNat) : a = b := by
  apply Char.ext
  exact UInt32.toNat.inj h

theorem charsLe_total (a b : Path) :
    charsLe a b = true ∨ charsLe b a = true := by
  induction a generalizing b with
  | nil => left; rfl
  | cons x xs ih =>
      cases b with
      | nil => right; rfl
      | cons y ys =>
          by_cases hxy : x = y
          · subst hxy
            rw [charsLe, if_pos rfl, charsLe, if_pos rfl]
            exact ih ys
          · rw [charsLe, if_neg hxy, charsLe, if_neg (Ne.symm hxy)]
            rcases Nat.le_total x.toNat y.toNat with h | h
            · left; exact decide_eq_true h
            · right; exact decide_eq_true h

theorem charsLe_trans (a b c : Path) (hab : charsLe a b = true)
    (hbc : charsLe b c = true) : charsLe a c = true := by
  induction a generalizing b c with
  | nil => rfl
  | cons x xs ih =>
      cases b with
      | nil => exact absurd hab (by rw [charsLe]; simp)
      | cons y ys =>
          cases c with
          | nil => exact absurd hbc (by rw [charsLe]; simp)
          | cons z zs =>
              by_cases hxy : x = y <;> by_cases hyz : y = z
              · subst hxy; subst hyz
                rw [charsLe, if_pos rfl] at hab hbc ⊢
                exact ih ys zs hab hbc
              · subst hxy
                rw [charsLe, if_pos rfl] at hab
                rw [charsLe, if_neg hyz] at hbc ⊢
                exact hbc
              · subst hyz
                rw [charsLe, if_neg hxy] at hab
                rw [charsLe, if_neg hxy]
                exact hab
              · rw [charsLe, if_neg hxy] at hab
                rw [charsLe, if_neg hyz] at hbc
                have h1 : x.toNat ≤ y.toNat := of_decide_eq_true hab
                have h2 : y.toNat ≤ z.toNat := of_decide_eq_true hbc
                by_cases hxz : x = z
                · subst hxz
                  have : x.toNat = y.toNat := Nat.le_antisymm h1 (by omega)
                  exact absurd (char_toNat_inj x y this) hxy
                · rw [charsLe, if_neg hxz]
                  exact decide_eq_true (Nat.le_trans h1 h2)

theorem insertLe_sorted (x : Path) (l : List Path)
    (h : List.Pairwise (fun a b => charsLe a b = true) l) :
    List.Pairwise (fun a b => charsLe a b = true) (insertLe x l) := by
  induction l with
  | nil => simp [insertLe]
  | cons y ys ih =>
      rw [insertLe]
      rcases List.pairwise_cons.mp h with ⟨hy, hys⟩
      by_cases hyx : charsLe y x = true
      · rw [if_pos hyx]
        apply List.pairwise_cons.mpr
        constructor
        · intro a ha
          have : a ∈ x :: ys := (insertLe_perm x ys).mem_iff.mp ha
          rcases List.mem_cons.mp this with rfl | hmem
          · exact hyx
          · exact hy a hmem
        · exact ih hys
      · have hxy : charsLe x y = true := by
          rcases charsLe_total x y with h' | h'
          · exact h'
          · exact absurd h' hyx
        rw [if_neg hyx]
        apply List.pairwise_cons.mpr
        constructor
        · intro a ha
          rcases List.mem_cons.mp ha with rfl | hmem
          · exact hxy
          · exact charsLe_trans x y a hxy (hy a hmem)
        · exact h

theorem sortPaths_sorted (l : List Path) :
    List.Pairwise (fun a b => charsLe a b = true) (sortPaths l) := by
  induction l with
  | nil => exact List.Pairwise.nil
  | cons x xs ih => exact insertLe_sorted x (sortPaths xs) ih

/-! ## Claims -/

/-- **C1.** For every source container whose entry paths are distinct
(the Container invariant) and every set of resolved replacement
targets, the patch loop emits every original entry exactly once, at the
same path and in the same native order; a non-targeted entry keeps its
input payload, a targeted entry carries the replacement bytes; and
patching with zero resolved targets reproduces the input container
entry for entry. -/
theorem C1_patch_preserves_entries (entries : List Entry)
    (repl : List (Path × Bytes)) (hnd : (entries.map Entry.path).Nodup) :
    ((applyPatch entries repl).map Entry.path = entries.map Entry.path)
    ∧ (∀ (i : Nat) (e : Entry), entries[i]? = some e → lookupA repl e.path = none →
        (applyPatch entries repl)[i]? = some e)
    ∧ (∀ (i : Nat) (e : Entry) (d : Bytes), entries[i]? = some e → lookupA repl e.path = some d →
        (applyPatch entries repl)[i]? = some { path := e.path, payload := d })
    ∧ applyPatch entries [] = entries := by
  refine ⟨?_, ?_, ?_, ?_⟩
  · rw [applyPatch, List.map_map]
    apply List.map_congr_left
    intro e _
    cases h : lookupA repl e.path <;> simp [h]
  · intro i e hi hl
    rw [applyPatch, List.getElem?_map, hi]
    have hmem : e ∈ entries := List.getElem?_mem hi
    simp [hl, readEntry_of_mem entries e hnd hmem]
  · intro i e d hi hl
    rw [applyPatch, List.getElem?_map, hi]
    simp [hl]
  · rw [applyPatch]
    conv_rhs => rw [← List.map_id entries]
    apply List.map_congr_left
    intro e he
    simp [lookupA, readEntry_of_mem entries e hnd he]

/-- Witness for C1 on a concrete two-entry container with one resolved
target. -/
theorem C1_patch_preserves_entries_witness :
    (applyPatch
        [{ path := "word/media/a.png".data, payload := [1] },
         { path := "word/document.xml".data, payload := [2] }]
        [("word/media/a.png".data, [9])])[0]?
      = some { path := "word/media/a.png".data, payload := [9] }
    ∧ (applyPatch
        [{ path := "word/media/a.png".data, payload := [1] },
         { path := "word/document.xml".data, payload := [2] }]
        [("word/media/a.png".data, [9])])[1]?
      = some { path := "word/document.xml".data, payload := [2] } :=
  ⟨(C1_patch_preserves_entries
      [{ path := "word/media/a.png".data, payload := [1] },
       { path := "word/document.xml".data, payload := [2] }]
      [("word/media/a.png".data, [9])] (by decide)).2.2.1 0
      { path := "word/media/a.png".data, payload := [1] } [9]
      (by decide) (by decide),
   (C1_patch_preserves_entries
      [{ path := "word/media/a.png".data, payload := [1] },
       { path := "word/document.xml".data, payload := [2] }]
      [("word/media/a.png".data, [9])] (by decide)).2.1 1
      { path := "word/document.xml".data, payload := [2] }
      (by decide) (by decide)⟩

/-- **C2, counterexample.** The claim says ordinals follow the
container's *native* archive order. Take a container whose media
entries appear natively as `b.png` then `a.png`: the code sorts the
names first, so `image1` resolves to `a.png`, not to the first native
entry `b.png`. -/
theorem C2_counterexample :
    (([{ path := "word/media/b.png".data, payload := [1] },
       { path := "word/media/a.png".data, payload := [2] }] :
        List Entry).map Entry.path
      = ["word/media/b.png".data, "word/media/a.png".data])
    ∧ resolveOrdinalTarget
        (mediaFiles [{ path := "word/media/b.png".data, payload := [1] },
                     { path := "word/media/a.png".data, payload := [2] }])
        "image1".data
      = some "word/media/a.png".data
    ∧ ¬ resolveOrdinalTarget
        (mediaFiles [{ path := "word/media/b.png".data, payload := [1] },
                     { path := "word/media/a.png".data, payload := [2] }])
        "image1".data
      = some "word/media/b.png".data := by
  decide

/-- **C2, amended.** The media catalog the resolver uses is the list of
non-directory `word/media/` entry names of the container *sorted
lexicographically* (a permutation of the native-order listing, in
`charsLe` order). Under that sorted order the ordinal contract holds:
for a reference `image<ds>` with a nonempty digit run `ds` of value
`k`, `1 ≤ k ≤ N` resolves to the `k`-th sorted entry, while `k = 0`
and `k > N` fail resolution. -/
theorem C2_ordinal_resolution_sorted (entries : List Entry) (ds : List Char)
    (hne : ds ≠ []) (hds : ∀ c ∈ ds, isDigitC c = true) :
    (∀ hk : 1 ≤ digitsToNat ds ∧ digitsToNat ds ≤ (mediaFiles entries).length,
        resolveOrdinalTarget (mediaFiles entries)
            ('i' :: 'm' :: 'a' :: 'g' :: 'e' :: ds)
          = some ((mediaFiles entries).get ⟨digitsToNat ds - 1, by omega⟩))
    ∧ (digitsToNat ds = 0 →
        resolveOrdinalTarget (mediaFiles entries)
            ('i' :: 'm' :: 'a' :: 'g' :: 'e' :: ds) = none)
    ∧ ((mediaFiles entries).length < digitsToNat ds →
        resolveOrdinalTarget (mediaFiles entries)
            ('i' :: 'm' :: 'a' :: 'g' :: 'e' :: ds) = none)
    ∧ List.Perm (mediaFiles entries)
        ((entries.map Entry.path).filter
          (fun p => startsWithL p mediaRoot && !(endsWithL p ('/' :: []))))
    ∧ List.Pairwise (fun a b => charsLe a b = true) (mediaFiles entries) := by
  have hparse : getImageIndex ('i' :: 'm' :: 'a' :: 'g' :: 'e' :: ds)
      = (digitsToNat ds : Int) - 1 :=
    getImageIndex_decomp _ ds [] (lowerL_image_digits ds hds) hne hds rfl
  refine ⟨?_, ?_, ?_, sortPaths_perm _, sortPaths_sorted _⟩
  · rintro ⟨hk1, hk2⟩
    simp only [resolveOrdinalTarget, hparse]
    rw [if_neg (by omega)]
    have ht : ((digitsToNat ds : Int) - 1).toNat = digitsToNat ds - 1 := by omega
    rw [ht, List.getD_eq_getElem _ _ (by omega)]
    simp [List.get_eq_getElem]
  · intro h0
    simp only [resolveOrdinalTarget, hparse, h0]
    norm_num
  · intro hlt
    simp only [resolveOrdinalTarget, hparse]
    rw [if_pos (by omega)]

/-- Witness for C2 on a two-image container: `image2` picks the second
sorted media entry. -/
theorem C2_ordinal_resolution_sorted_witness :
    resolveOrdinalTarget
        (mediaFiles [{ path := "word/media/b.png".data, payload := [1] },
                     { path := "word/media/a.png".data, payload := [2] }])
        ('i' :: 'm' :: 'a' :: 'g' :: 'e' :: ('2' :: []))
      = some "word/media/b.png".data := by
  have h := (C2_ordinal_resolution_sorted
      [{ path := "word/media/b.png".data, payload := [1] },
       { path := "word/media/a.png".data, payload := [2] }]
      ('2' :: []) (by decide) (by decide)).1 (by decide)
  exact h.trans (by decide)

theorem resolveOrdinal_skip (media : List Path) (t : Path)
    (h : getImageIndex t = -1) : resolveOrdinalTarget media t = none := by
  simp [resolveOrdinalTarget, h]

theorem buildRD_skip (media : List Path) (reps : List Rep) (t p : Path)
    (fs : FS) (enc : PImage → Bytes)
    (h : resolveOrdinalTarget media t = none) :
    buildReplacementData media ({ target := t, replPath := p } :: reps) fs enc
      = buildReplacementData media reps fs enc := by
  simp [buildReplacementData, List.foldl_cons, h]

theorem goFilename_none (t : Path) (l : List Path)
    (h : ∀ f ∈ l, ¬ basenameL f = t) :
    ∀ i : Nat, getImageIndexByFilename.go t l i = -1 := by
  induction l with
  | nil => intro i; rfl
  | cons f fs ih =>
      intro i
      rw [getImageIndexByFilename.go,
        if_neg (h f (List.mem_cons_self f fs))]
      exact ih (fun g hg => h g (List.mem_cons_of_mem f hg)) (i + 1)

theorem resolveFilename_absent (media : List Path) (t : Path)
    (h : ∀ f ∈ media, ¬ basenameL f = t) :
    resolveFilenameTarget media t = none := by
  simp [resolveFilenameTarget, getImageIndexByFilename,
    goFilename_none t media h 0]

/-- **C3, counterexample.** There is no shape dispatch. In the
ordinal-based pipeline (`replace_processor.py`) the literal token
`logo.png` is skipped even though an entry `word/media/logo.png` is in
the catalog — it is never looked up as a filename. Conversely the
filename-based resolver (`image_replacer.py`) fails on `image1` over a
two-entry catalog instead of parsing it as an ordinal. -/
theorem C3_counterexample :
    buildReplacementData ["word/media/logo.png".data]
        [{ target := "logo.png".data, replPath := "new.png".data }]
        fsStub encStub = []
    ∧ resolveFilenameTarget ["word/media/logo.png".data] "logo.png".data
        = some "word/media/logo.png".data
    ∧ resolveFilenameTarget
        ["word/media/a.png".data, "word/media/b.png".data]
        "image1".data = none := by
  decide

/-- **C3, amended.** The code has two separate resolvers instead of one
dispatching resolver: `replace_processor.py` resolves only tokens whose
lowered form begins with `image<digits>` — any other token fails
ordinal parsing and is skipped, never treated as a filename — while
`image_replacer.py` resolves every token as a literal leaf filename and
fails whenever no entry has that base name, never falling back to
ordinal parsing. -/
theorem C3_two_separate_resolvers :
    (∀ (media : List Path) (reps : List Rep) (t p : Path) (fs : FS)
        (enc : PImage → Bytes),
        getImageIndex t = -1 →
        buildReplacementData media ({ target := t, replPath := p } :: reps) fs enc
          = buildReplacementData media reps fs enc)
    ∧ (∀ (media : List Path) (t : Path),
        (∀ f ∈ media, ¬ basenameL f = t) →
        resolveFilenameTarget media t = none) := by
  constructor
  · intro media reps t p fs enc h
    exact buildRD_skip media reps t p fs enc (resolveOrdinal_skip media t h)
  · exact resolveFilename_absent

/-- Witness for the amended C3 at concrete tokens and catalogs. -/
theorem C3_two_separate_resolvers_witness :
    buildReplacementData ["word/media/logo.png".data]
        [{ target := "logo.png".data, replPath := "x".data }] fsStub encStub
      = buildReplacementData ["word/media/logo.png".data] [] fsStub encStub
    ∧ resolveFilenameTarget ["word/media/photo.png".data] "image1".data = none :=
  ⟨C3_two_separate_resolvers.1 ["word/media/logo.png".data] []
      "logo.png".data "x".data fsStub encStub (by decide),
   C3_two_separate_resolvers.2 ["word/media/photo.png".data] "image1".data
      (by decide)⟩

theorem foldl_pairStep_fst (fs : FS) (encJ encP : PImage → Bytes)
    (pairs : List (Path × Path)) :
    ∀ (s : List Entry) (b1 b2 : Bool),
      (List.foldl (pairStepV2 fs encJ encP) (s, b1) pairs).1
        = (List.foldl (pairStepV2 fs encJ encP) (s, b2) pairs).1 := by
  induction pairs with
  | nil => intro s b1 b2; rfl
  | cons pr rest ih =>
      intro s b1 b2
      simp only [List.foldl_cons, pairStepV2]
      cases h : replaceImageInStructure fs encJ encP s pr.1 pr.2 with
      | none => simp
      | some s2 => exact ih s2 b1 b2

theorem foldl_pairStep_false (fs : FS) (encJ encP : PImage → Bytes)
    (pairs : List (Path × Path)) :
    ∀ s : List Entry,
      (List.foldl (pairStepV2 fs encJ encP) (s, false) pairs).2 = false := by
  induction pairs with
  | nil => intro s; rfl
  | cons pr rest ih =>
      intro s
      simp only [List.foldl_cons, pairStepV2]
      cases h : replaceImageInStructure fs encJ encP s pr.1 pr.2 with
      | none => simp [ih]
      | some s2 => simp [ih]

/-- **C4, counterexample.** In `image_replacer_v2.py` an instruction
with one resolvable target (`a.png`) and one unresolvable target
(`missing.png`) produces *no* output container — the unresolvable
target clears `replacement_success` and the rebuild is skipped — even
though the resolvable target was applied to the working copy. -/
theorem C4_counterexample :
    processDocumentV2 fsStub encStub encStub
        [{ path := "word/media/a.png".data, payload := [1] },
         { path := "word/document.xml".data, payload := [2] }]
        [("a.png".data, "new.png".data), ("missing.png".data, "x".data)]
      = none
    ∧ (processPairsV2 fsStub encStub encStub
        [{ path := "word/media/a.png".data, payload := [1] },
         { path := "word/document.xml".data, payload := [2] }]
        [("a.png".data, "new.png".data), ("missing.png".data, "x".data)]).1
      = [{ path := "word/media/a.png".data, payload := [7] },
         { path := "word/document.xml".data, payload := [2] }] := by
  decide

/-- **C4, amended.** In the zip-based pipeline
(`replace_processor.py`) the claim holds: an unresolvable target is
skipped, the resolvable target of the same instruction is still
applied, and the output container is still produced. In the
structure-based pipeline (`image_replacer_v2.py`) the remaining targets
are still applied to the working copy, but a single failed target
prevents the output container from being produced for that document. -/
theorem C4_partial_failure :
    (∀ (entries : List Entry) (fs : FS) (enc : PImage → Bytes)
        (tb pb : Path) (rg : Rep) (tf : Path) (d : Bytes),
        resolveOrdinalTarget (mediaFiles entries) tb = none →
        resolveOrdinalTarget (mediaFiles entries) rg.target = some tf →
        prepareReplacementImage fs enc rg.replPath = some d →
        replaceImagesInDocxRP entries
            ({ target := tb, replPath := pb } :: rg :: []) fs enc
          = applyPatch entries [(tf, d)])
    ∧ (∀ (fs : FS) (encJ encP : PImage → Bytes) (struct : List Entry)
        (pairs : List (Path × Path)) (n r : Path),
        replaceImageInStructure fs encJ encP struct n r = none →
        processDocumentV2 fs encJ encP struct ((n, r) :: pairs) = none
        ∧ (processPairsV2 fs encJ encP struct ((n, r) :: pairs)).1
            = (processPairsV2 fs encJ encP struct pairs).1) := by
  constructor
  · intro entries fs enc tb pb rg tf d hbad hres hprep
    rw [replaceImagesInDocxRP]
    congr 1
    simp [buildReplacementData, List.foldl_cons, hbad, hres, hprep, setKey]
  · intro fs encJ encP struct pairs n r hfail
    have hstep : pairStepV2 fs encJ encP (struct, true) (n, r)
        = (struct, false) := by
      simp [pairStepV2, hfail]
    constructor
    · rw [processDocumentV2]
      simp only [processPairsV2, List.foldl_cons, hstep,
        foldl_pairStep_false fs encJ encP pairs struct]
      simp
    · simp only [processPairsV2, List.foldl_cons, hstep]
      exact foldl_pairStep_fst fs encJ encP pairs struct false true

/-- Witness for the amended C4 at a concrete container and instruction. -/
theorem C4_partial_failure_witness :
    replaceImagesInDocxRP
        [{ path := "word/media/a.png".data, payload := [1] }]
        [{ target := "nope".data, replPath := "p".data },
         { target := "image1".data, replPath := "n.png".data }] fsStub encStub
      = applyPatch [{ path := "word/media/a.png".data, payload := [1] }]
          [("word/media/a.png".data, [7])]
    ∧ processDocumentV2 fsStub encStub encStub
        [{ path := "word/media/a.png".data, payload := [1] }]
        [("missing.png".data, "x".data)] = none :=
  ⟨C4_partial_failure.1 [{ path := "word/media/a.png".data, payload := [1] }]
      fsStub encStub "nope".data "p".data
      { target := "image1".data, replPath := "n.png".data }
      "word/media/a.png".data [7] (by decide) (by decide) (by decide),
   (C4_partial_failure.2 fsStub encStub encStub
      [{ path := "word/media/a.png".data, payload := [1] }] []
      "missing.png".data "x".data (by decide)).1⟩

theorem pairAt2_nil (i : Nat) : pairAt2 [] i = none := rfl

theorem getElem?_two_mul_succ (a b : Cell) (rest : List Cell) (i : Nat) :
    (a :: b :: rest)[2 * (i + 1)]? = rest[2 * i]? := by
  have h : 2 * (i + 1) = 2 * i + 1 + 1 := by ring
  rw [h, List.getElem?_cons_succ, List.getElem?_cons_succ]

theorem getElem?_two_mul_succ_one (a b : Cell) (rest : List Cell) (i : Nat) :
    (a :: b :: rest)[2 * (i + 1) + 1]? = rest[2 * i + 1]? := by
  have h : 2 * (i + 1) + 1 = 2 * i + 1 + 1 + 1 := by ring
  rw [h, List.getElem?_cons_succ, List.getElem?_cons_succ]

theorem pairAt2_single (a : Cell) (i : Nat) : pairAt2 [a] i = none := by
  cases i with
  | zero => rfl
  | succ j =>
      rw [pairAt2]
      have h1 : ([a] : List Cell)[2 * (j + 1)]? = none := by
        apply List.getElem?_eq_none
        simp; omega
      rw [h1]

theorem pairAt2_cons2 (a b : Cell) (rest : List Cell) (i : Nat) :
    pairAt2 (a :: b :: rest) (i + 1) = pairAt2 rest i := by
  rw [pairAt2, pairAt2, getElem?_two_mul_succ, getElem?_two_mul_succ_one]

theorem pairsAux_eq (cells : List Cell) (n : Nat) (h : cells.length ≤ 2 * n) :
    pairsAux cells = (List.range n).filterMap (fun i => pairAt2 cells i) :=
  match cells, n with
  | [], n =>
      (List.filterMap_eq_nil_iff.mpr (fun i _ => pairAt2_nil i)).symm
  | [a], n =>
      (List.filterMap_eq_nil_iff.mpr (fun i _ => pairAt2_single a i)).symm
  | a :: b :: rest, n => by
      match n, h with
      | m + 1, h =>
          have ih := pairsAux_eq rest m (by simp at h ⊢; omega)
          rw [pairsAux, List.range_succ_eq_map, List.filterMap_cons,
            List.filterMap_map]
          have hcomp : ((fun i => pairAt2 (a :: b :: rest) i) ∘ Nat.succ)
              = fun i => pairAt2 rest i := by
            funext i
            exact pairAt2_cons2 a b rest i
          rw [hcomp, ← ih]
          cases hv : cellValid a && cellValid b with
          | true =>
              have h0 : pairAt2 (a :: b :: rest) 0
                  = some (cellVal a, cellVal b) := by
                rw [pairAt2]
                simp [hv]
              rw [h0]
              simp
          | false =>
              have h0 : pairAt2 (a :: b :: rest) 0 = none := by
                rw [pairAt2]
                simp [hv]
              rw [h0]
              simp

theorem drop_one_getElem? (row : Row) (i : Nat) :
    (row.drop 1)[i]? = row[i + 1]? := by
  cases row with
  | nil => rfl
  | cons r rs => rw [List.drop_one, List.tail_cons, List.getElem?_cons_succ]

theorem pairAt_eq_pairAt2 (row : Row) (i : Nat) :
    pairAt row i = pairAt2 (row.drop 1) i := by
  rw [pairAt, pairAt2, drop_one_getElem?, drop_one_getElem?]

theorem pairsOfRow_eq_spec (row : Row) :
    pairsOfRow row = (List.range row.length).filterMap (pairAt row) := by
  rw [pairsOfRow, pairsAux_eq (row.drop 1) row.length (by simp; omega)]
  apply List.filterMap_congr
  intro i _
  exact (pairAt_eq_pairAt2 row i).symm

end WordImg

namespace WordImg

theorem processRows_cons (row : Row) (rest : List Row) :
    processRows (row :: rest)
      = match row.headD none with
        | none => processRows rest
        | some fp =>
            if fp = [] then processRows rest
            else
              if pairsOfRow row = [] then processRows rest
              else { filePath := fp, replacements := pairsOfRow row }
                :: processRows rest := rfl

theorem filterMap_range_three {α : Type} (f : Nat → Option α) :
    (List.range 3).filterMap f
      = (f 0).toList ++ (f 1).toList ++ (f 2).toList := by
  have h3 : List.range 3 = [0, 1, 2] := by decide
  rw [h3]
  cases h0 : f 0 <;> cases h1 : f 1 <;> cases h2 : f 2 <;>
    simp [List.filterMap_cons, h0, h1, h2, Option.toList]

theorem pairSlotCsv_eq (row : Row) (i : Nat) (h : 2 * i + 2 < row.length) :
    pairSlotCsv row i = some (Option.toList (pairAt row i)) := by
  have h1 : 2 * i + 1 < row.length := by omega
  rw [pairSlotCsv, if_neg (by omega), pairAt,
    List.getElem?_eq_getElem h1, List.getElem?_eq_getElem h]
  cases hc1 : row[2 * i + 1] with
  | none => simp [cellValid]
  | some s1 =>
      cases hc2 : row[2 * i + 2] with
      | none => simp [cellValid]
      | some s2 =>
          by_cases e1 : s1 = [] <;> by_cases e2 : s2 = [] <;>
            simp [cellValid, cellVal, e1, e2]

theorem rowPairsCsv_wide (row : Row) (h : 7 ≤ row.length) :
    rowPairsCsv row = some ((List.range 3).filterMap (pairAt row)) := by
  rw [rowPairsCsv, pairSlotCsv_eq row 0 (by omega),
    pairSlotCsv_eq row 1 (by omega), pairSlotCsv_eq row 2 (by omega),
    filterMap_range_three]

theorem rowPairsCsv_short (c0 : Cell) (s1 : Path) :
    rowPairsCsv [c0, some s1] = none := rfl

theorem processRowsCsv_cons (row : Row) (rest : List Row) :
    processRowsCsv (row :: rest)
      = match row.headD none with
        | none => processRowsCsv rest
        | some fp =>
            if fp = [] then processRowsCsv rest
            else
              match rowPairsCsv row with
              | none => []
              | some ps =>
                  if ps = [] then processRowsCsv rest
                  else { filePath := fp, replacements := ps }
                    :: processRowsCsv rest := rfl

theorem processRowsCsv_abort (rest : List Row) (fp s1 : Path)
    (hfp : fp ≠ []) :
    processRowsCsv ((some fp :: some s1 :: []) :: rest) = [] := by
  rw [processRowsCsv_cons, List.headD_cons]
  simp only [if_neg hfp, rowPairsCsv_short]

theorem processRowsCsv_keep (row : Row) (rest : List Row) (fp : Path)
    (ps : List (Path × Path)) (hh : row.headD none = some fp)
    (hfp : fp ≠ []) (hps : rowPairsCsv row = some ps) :
    processRowsCsv (row :: rest)
      = if ps = [] then processRowsCsv rest
        else { filePath := fp, replacements := ps } :: processRowsCsv rest := by
  rw [processRowsCsv_cons, hh]
  simp only [if_neg hfp, hps]

/-- **C5, counterexample.** The claim fails on
`load_replacement_orders_from_csv` (`replace_processor.py`): (1) in a
row with four valid pairs, the pair at columns `(2*3+1, 2*3+2)` has
both cells non-empty — the claim says it contributes — yet the produced
instruction carries only the first three pairs (only columns 1–6 are
checked); (2) the first row is consumed as a header even though its
column 0 is not the header label; (3) a two-column row with a non-NaN
reference cell raises `IndexError` at `row.iloc[2]`, which drops the
remaining (perfectly valid) rows instead of skipping just that row. -/
theorem C5_counterexample :
    pairAt [some "f".data, some "t1".data, some "p1".data, some "t2".data,
            some "p2".data, some "t3".data, some "p3".data, some "t4".data,
            some "p4".data] 3
      = some ("t4".data, "p4".data)
    ∧ processRowsCsv
        [[some "f".data, some "t1".data, some "p1".data, some "t2".data,
          some "p2".data, some "t3".data, some "p3".data, some "t4".data,
          some "p4".data]]
      = [{ filePath := "f".data,
           replacements := [("t1".data, "p1".data), ("t2".data, "p2".data),
                            ("t3".data, "p3".data)] }]
    ∧ loadOrdersCsv [[some "g".data, some "t".data, some "p".data],
                     [some "f".data, some "t".data, some "p".data]]
      = [{ filePath := "f".data, replacements := [("t".data, "p".data)] }]
    ∧ processRowsCsv [[some "bad".data, some "t".data],
                      [some "f".data, some "t".data, some "p".data]] = [] := by
  decide

/-- **C5, amended.** For `load_replacement_orders` (`image_replacer.py`)
the claim holds as stated: the header row (literal label in column 0)
is detected and skipped, a row whose column 0 is missing or empty is
skipped, a row yielding zero valid pairs produces no instruction, a row
with a nonempty column 0 and at least one valid pair produces exactly
one instruction, and the extracted pairs are exactly those at columns
`(2*i+1, 2*i+2)` for every `i` up to the row's width whose two cells
are both non-empty (`pairAt`, written from the claim's words). For
`load_replacement_orders_from_csv` (`replace_processor.py`) the pair
rule holds only for the first three slots: a (wide enough) row
contributes exactly `(List.range 3).filterMap (pairAt row)` — columns
beyond 6 never contribute; the first row is consumed as a header by the
CSV reader unconditionally, label or not; and a row that ends right
after a non-NaN reference cell raises `IndexError`, aborting every
remaining row of the order file. -/
theorem C5_order_loader_rows :
    (∀ (r : Row) (rest : List Row), r.headD none = some headerLabel →
        loadOrders (r :: rest) = processRows rest)
    ∧ (∀ (row : Row) (rest : List Row), row.headD none = none →
        processRows (row :: rest) = processRows rest)
    ∧ (∀ (row : Row) (rest : List Row), row.headD none = some [] →
        processRows (row :: rest) = processRows rest)
    ∧ (∀ (row : Row) (rest : List Row), pairsOfRow row = [] →
        processRows (row :: rest) = processRows rest)
    ∧ (∀ (row : Row) (rest : List Row) (fp : Path),
        row.headD none = some fp → fp ≠ [] → pairsOfRow row ≠ [] →
        processRows (row :: rest)
          = { filePath := fp, replacements := pairsOfRow row } :: processRows rest)
    ∧ (∀ row : Row,
        pairsOfRow row = (List.range row.length).filterMap (pairAt row))
    ∧ (∀ row : Row, 7 ≤ row.length →
        rowPairsCsv row = some ((List.range 3).filterMap (pairAt row)))
    ∧ (∀ (r : Row) (rest : List Row), r.headD none ≠ some headerLabel →
        loadOrdersCsv (r :: rest) = processRowsCsv rest)
    ∧ (∀ (rest : List Row) (fp s1 : Path), fp ≠ [] →
        processRowsCsv ((some fp :: some s1 :: []) :: rest) = [])
    ∧ (∀ (row : Row) (rest : List Row) (fp : Path)
        (ps : List (Path × Path)),
        row.headD none = some fp → fp ≠ [] → rowPairsCsv row = some ps →
        processRowsCsv (row :: rest)
          = if ps = [] then processRowsCsv rest
            else { filePath := fp, replacements := ps }
              :: processRowsCsv rest) := by
  refine ⟨?_, ?_, ?_, ?_, ?_, pairsOfRow_eq_spec, rowPairsCsv_wide,
    fun r rest _ => rfl, processRowsCsv_abort, processRowsCsv_keep⟩
  · intro r rest h
    rw [loadOrders]
    have hc : ((r :: rest).headD []).headD none = some headerLabel := by
      rw [List.headD_cons]
      exact h
    rw [if_pos hc]
    rfl
  · intro row rest h
    rw [processRows_cons, h]
  · intro row rest h
    rw [processRows_cons, h]
    simp
  · intro row rest h
    cases hh : row.headD none with
    | none => rw [processRows_cons, hh]
    | some fp =>
        by_cases hfp : fp = []
        · rw [processRows_cons, hh]
          simp only [if_pos hfp]
        · rw [processRows_cons, hh]
          simp only [if_neg hfp, if_pos h]
  · intro row rest fp h hfp hps
    rw [processRows_cons, h]
    simp only [if_neg hfp, if_neg hps]

/-- Witness for the amended C5 on a concrete one-pair row, a header
row, a seven-column row for the fixed-slot CSV loader, and a two-column
row triggering the abort. -/
theorem C5_order_loader_rows_witness :
    processRows [[some "f".data, some "t".data, some "p".data]]
      = [{ filePath := "f".data,
           replacements :=
             pairsOfRow [some "f".data, some "t".data, some "p".data] }]
    ∧ loadOrders [[some headerLabel, some "t".data, some "p".data]]
        = processRows []
    ∧ rowPairsCsv
        [some "f".data, some "t".data, some "p".data, none, none, none, none]
      = some ((List.range 3).filterMap
          (pairAt [some "f".data, some "t".data, some "p".data,
                   none, none, none, none]))
    ∧ processRowsCsv [[some "x".data, some "t".data]] = [] :=
  ⟨C5_order_loader_rows.2.2.2.2.1
      [some "f".data, some "t".data, some "p".data] [] "f".data rfl
      (by decide) (by decide),
   C5_order_loader_rows.1 [some headerLabel, some "t".data, some "p".data] []
      rfl,
   C5_order_loader_rows.2.2.2.2.2.2.1
      [some "f".data, some "t".data, some "p".data, none, none, none, none]
      (by decide),
   C5_order_loader_rows.2.2.2.2.2.2.2.2.1 [] "x".data "t".data (by decide)⟩

theorem firstOk_all_false (ok : String → Bool) (l : List String)
    (h : ∀ e ∈ l, ok e = false) : firstOk ok l = none := by
  induction l with
  | nil => rfl
  | cons e es ih =>
      rw [firstOk, if_neg (by simp [h e (List.mem_cons_self e es)])]
      exact ih (fun x hx => h x (List.mem_cons_of_mem e hx))

theorem firstOk_first_success (ok : String → Bool) (l1 l2 : List String)
    (e : String) (h1 : ∀ x ∈ l1, ok x = false) (he : ok e = true) :
    firstOk ok (l1 ++ e :: l2) = some e := by
  induction l1 with
  | nil => rw [List.nil_append, firstOk, if_pos he]
  | cons x xs ih =>
      rw [List.cons_append, firstOk,
        if_neg (by simp [h1 x (List.mem_cons_self x xs)])]
      exact ih (fun y hy => h1 y (List.mem_cons_of_mem x hy))

theorem firstRead_all_none (read : String → Option (List Row))
    (l : List String) (h : ∀ e ∈ l, read e = none) :
    firstRead read l = none := by
  induction l with
  | nil => rfl
  | cons e es ih =>
      rw [firstRead, h e (List.mem_cons_self e es)]
      exact ih (fun x hx => h x (List.mem_cons_of_mem e hx))

theorem firstRead_first_success (read : String → Option (List Row))
    (l1 l2 : List String) (e : String) (df : List Row)
    (h1 : ∀ x ∈ l1, read x = none) (he : read e = some df) :
    firstRead read (l1 ++ e :: l2) = some df := by
  induction l1 with
  | nil => rw [List.nil_append, firstRead, he]
  | cons x xs ih =>
      rw [List.cons_append, firstRead, h1 x (List.mem_cons_self x xs)]
      exact ih (fun y hy => h1 y (List.mem_cons_of_mem x hy))

/-- **C6, counterexample.** When no candidate encoding succeeds,
`detect_encoding` (`image_replacer_v2.py`) returns the default
`'utf-8'` instead of failing, and `load_replacement_orders`
(`image_replacer.py`) returns an empty instruction list rather than
raising an `UndecodableFile` error. -/
theorem C6_counterexample :
    detectEncoding (fun _ => false) = "utf-8"
    ∧ loadReplacementOrders (fun _ => none) = [] :=
  ⟨rfl, rfl⟩

/-- **C6, amended.** Decoding tries the fixed ordered candidate list and
accepts the first encoding that reads the whole file without error. But
when none succeeds, loading does not fail with an `UndecodableFile`
error: `detect_encoding` falls back to the default `'utf-8'`, and
`load_replacement_orders` returns an empty instruction list. -/
theorem C6_encoding_trials :
    (∀ (ok : String → Bool) (l1 l2 : List String) (e : String),
        (∀ x ∈ l1, ok x = false) → ok e = true →
        firstOk ok (l1 ++ e :: l2) = some e)
    ∧ (∀ ok : String → Bool, (∀ e ∈ encodingsV2, ok e = false) →
        detectEncoding ok = "utf-8")
    ∧ (∀ (read : String → Option (List Row)) (l1 l2 : List String)
        (e : String) (df : List Row),
        (∀ x ∈ l1, read x = none) → read e = some df →
        firstRead read (l1 ++ e :: l2) = some df)
    ∧ (∀ read : String → Option (List Row),
        (∀ e ∈ encodingsIR, read e = none) →
        loadReplacementOrders read = []) := by
  refine ⟨firstOk_first_success, ?_, firstRead_first_success, ?_⟩
  · intro ok h
    rw [detectEncoding, firstOk_all_false ok encodingsV2 h]
  · intro read h
    rw [loadReplacementOrders, firstRead_all_none read encodingsIR h]

/-- Witness for C6: `utf-8` is picked when it is the first succeeding
candidate, and an encoding outside the candidate list triggers the
`utf-8` fallback. -/
theorem C6_encoding_trials_witness :
    firstOk (fun e => decide (e = "utf-8")) encodingsV2 = some "utf-8"
    ∧ detectEncoding (fun e => decide (e = "latin9")) = "utf-8" :=
  ⟨C6_encoding_trials.1 (fun e => decide (e = "utf-8"))
      ["cp932", "shift_jis"] ["utf-8-sig", "euc-jp", "iso-2022-jp"] "utf-8"
      (by decide) (by decide),
   C6_encoding_trials.2.1 (fun e => decide (e = "latin9")) (by decide)⟩



theorem goFilename_first_match (t : Path) (l : List Path) :
    ∀ (k i : Nat) (hi : i < l.length),
      basenameL (l.get ⟨i, hi⟩) = t →
      (∀ j (hj : j < i), ¬ basenameL (l.get ⟨j, by omega⟩) = t) →
      getImageIndexByFilename.go t l k = ((k + i : Nat) : Int) := by
  induction l with
  | nil => intro k i hi; exact absurd hi (by simp)
  | cons f fs ih =>
      intro k i hi hm hpre
      cases i with
      | zero =>
          have hm0 : basenameL f = t := hm
          rw [getImageIndexByFilename.go, if_pos hm0]
          rfl
      | succ i' =>
          have hf : ¬ basenameL f = t := hpre 0 (by omega)
          rw [getImageIndexByFilename.go, if_neg hf]
          have hi' : i' < fs.length := by
            simp at hi; omega
          have hm' : basenameL (fs.get ⟨i', hi'⟩) = t := hm
          have hpre' : ∀ j (hj : j < i'),
              ¬ basenameL (fs.get ⟨j, by omega⟩) = t := by
            intro j hj
            exact hpre (j + 1) (by omega)
          have := ih (k + 1) i' hi' hm' hpre'
          rw [this]
          congr 1
          omega



/-- **C7, counterexample.** Filename lookup runs over the *sorted*
media list, not the native-order catalog. With native order
`[word/media/sub/a.png, word/media/a.png]`, the first native entry with
leaf `a.png` is `word/media/sub/a.png`, but the resolver returns
`word/media/a.png` (first in sorted order). -/
theorem C7_counterexample :
    (([{ path := "word/media/sub/a.png".data, payload := [1] },
       { path := "word/media/a.png".data, payload := [2] }] :
        List Entry).map Entry.path).find?
        (fun p => basenameL p = "a.png".data)
      = some "word/media/sub/a.png".data
    ∧ resolveFilenameTarget
        (mediaFiles
          [{ path := "word/media/sub/a.png".data, payload := [1] },
           { path := "word/media/a.png".data, payload := [2] }])
        "a.png".data
      = some "word/media/a.png".data := by
  decide

/-- **C7, amended.** Filename resolution compares the reference against
the final path component of each media entry, case-sensitively
(char-exact equality); it fails when no entry has that leaf name, and
the failed target is skipped without touching the rest of the
instruction; when several entries share the leaf name it resolves to
the first match in the list it scans — which is the media list *sorted
lexicographically* (`Pairwise charsLe`), not the native-order catalog. -/
theorem C7_filename_resolution :
    (∀ (media : List Path) (t : Path),
        (∀ f ∈ media, ¬ basenameL f = t) →
        resolveFilenameTarget media t = none)
    ∧ (∀ (media : List Path) (t : Path) (i : Nat) (hi : i < media.length),
        basenameL (media.get ⟨i, hi⟩) = t →
        (∀ j (hj : j < i), ¬ basenameL (media.get ⟨j, by omega⟩) = t) →
        resolveFilenameTarget media t = some (media.get ⟨i, hi⟩))
    ∧ (∀ (media : List Path) (reps : List Rep) (t p : Path) (fs : FS)
        (enc : PImage → Bytes),
        (∀ f ∈ media, ¬ basenameL f = t) →
        buildReplacementDataIR media ({ target := t, replPath := p } :: reps)
            fs enc
          = buildReplacementDataIR media reps fs enc)
    ∧ (∀ entries : List Entry,
        List.Pairwise (fun a b => charsLe a b = true) (mediaFiles entries)) := by
  refine ⟨resolveFilename_absent, ?_, ?_, fun entries => sortPaths_sorted _⟩
  · intro media t i hi hm hpre
    have hgo := goFilename_first_match t media 0 i hi hm hpre
    rw [resolveFilenameTarget, getImageIndexByFilename]
    rw [hgo]
    rw [if_neg (by omega)]
    have ht : (((0 + i : Nat) : Int)).toNat = i := by omega
    rw [ht, List.getD_eq_getElem _ _ hi]
    simp [List.get_eq_getElem]
  · intro media reps t p fs enc h
    simp [buildReplacementDataIR, List.foldl_cons,
      resolveFilename_absent media t h]

/-- Witness for the amended C7 on a catalog with a duplicated leaf name. -/
theorem C7_filename_resolution_witness :
    resolveFilenameTarget
        ["word/media/a.png".data, "word/media/sub/a.png".data] "a.png".data
      = some "word/media/a.png".data :=
  (C7_filename_resolution.2.1
      ["word/media/a.png".data, "word/media/sub/a.png".data] "a.png".data 0
      (by decide) (by decide)
      (fun j hj => absurd hj (Nat.not_lt_zero j))).trans (by decide)



/-- **C8, counterexample.** In the directory-based implementation a
failure while rebuilding (here: before any entry is added) leaves a
partial archive at the *final output path* — the output path is written
even though the patch failed, contradicting the claim for that
implementation. -/
theorem C8_counterexample :
    (processDocumentRunV2 fsStub encStub encStub
        [{ path := "word/media/a.png".data, payload := [1] }]
        [("a.png".data, "new.png".data)] (some 0)).outputAtExit = some []
    ∧ (processDocumentRunV2 fsStub encStub encStub
        [{ path := "word/media/a.png".data, payload := [1] }]
        [("a.png".data, "new.png".data)] (some 0)).success = false := by
  decide

/-- **C8, amended.** For the zip-based implementations the claim holds:
the output is built at a temporary path, the temp file never survives
the call, the final path receives exactly the finished container on
success and is never written on failure. The directory-based pipeline
removes its temporary working directory whether the patch succeeds or
fails, but `rebuild_docx_from_structure` writes the archive directly at
the final output path, so a failure mid-rebuild leaves a partial file
there. -/
theorem C8_temp_file_handling :
    (∀ (entries : List Entry) (repl : List (Path × Bytes))
        (failAt : Option Nat),
        (replaceDocxRun entries repl failAt).tempAtExit = none)
    ∧ (∀ (entries : List Entry) (repl : List (Path × Bytes)),
        (replaceDocxRun entries repl none).outputAtExit
          = some (applyPatch entries repl))
    ∧ (∀ (entries : List Entry) (repl : List (Path × Bytes)) (i : Nat),
        (replaceDocxRun entries repl (some i)).outputAtExit = none)
    ∧ (∀ (fs : FS) (encJ encP : PImage → Bytes) (struct : List Entry)
        (pairs : List (Path × Path)) (failAt : Option Nat),
        (processDocumentRunV2 fs encJ encP struct pairs failAt).workDirAtExit
          = none)
    ∧ (∀ (files : List Entry) (i : Nat),
        (rebuildDocxRun files (some i)).1 = some (files.take i)
        ∧ (rebuildDocxRun files (some i)).2 = false) := by
  refine ⟨?_, fun entries repl => rfl, fun entries repl i => rfl, ?_,
    fun files i => ⟨rfl, rfl⟩⟩
  · intro entries repl failAt
    cases failAt <;> rfl
  · intro fs encJ encP struct pairs failAt
    rw [processDocumentRunV2]
    cases h : (processPairsV2 fs encJ encP struct pairs).2 <;>
      cases failAt <;> simp [h, rebuildDocxRun]

/-- **C9.** The normalizer fails (returns no payload) when the source
path does not exist or the bytes do not decode, and a failed
normalization skips the target without disturbing the rest of the
instruction. When the decoded image's mode is RGBA, LA or P it is
flattened to RGB before re-encoding: the color content and the pixel
dimensions are passed through unchanged (no compositing against a
background, no resizing) and the alpha channel is dropped. -/
theorem C9_normalizer :
    (∀ (fs : FS) (enc : PImage → Bytes) (p : Path),
        fs.pathExists p = false → prepareReplacementImage fs enc p = none)
    ∧ (∀ (fs : FS) (enc : PImage → Bytes) (p : Path),
        fs.decode p = none → prepareReplacementImage fs enc p = none)
    ∧ (∀ (fs : FS) (enc : PImage → Bytes) (p : Path) (img : PImage),
        fs.pathExists p = true → fs.decode p = some img →
        (img.mode = PMode.RGBA ∨ img.mode = PMode.LA ∨ img.mode = PMode.P) →
        prepareReplacementImage fs enc p
          = some (enc { mode := PMode.RGB, width := img.width,
                        height := img.height, rgb := img.rgb, alpha := [] }))
    ∧ (∀ (media : List Path) (reps : List Rep) (t p : Path) (fs : FS)
        (enc : PImage → Bytes),
        prepareReplacementImage fs enc p = none →
        buildReplacementData media ({ target := t, replPath := p } :: reps)
            fs enc
          = buildReplacementData media reps fs enc) := by
  refine ⟨?_, ?_, ?_, ?_⟩
  · intro fs enc p h
    simp [prepareReplacementImage, h]
  · intro fs enc p h
    cases hex : fs.pathExists p <;> simp [prepareReplacementImage, hex, h]
  · intro fs enc p img hex hdec hmode
    rw [prepareReplacementImage]
    rw [hex]
    simp only [hdec]
    rw [if_pos hmode]
    rfl
  · intro media reps t p fs enc h
    cases hres : resolveOrdinalTarget media t <;>
      simp [buildReplacementData, List.foldl_cons, h, hres]

/-- Witness for C9: a missing source path and a concrete RGBA image. -/
theorem C9_normalizer_witness :
    prepareReplacementImage
        { pathExists := fun _ => false, decode := fun _ => none }
        encStub "x".data = none
    ∧ prepareReplacementImage
        { pathExists := fun _ => true,
          decode := fun _ =>
            some { mode := PMode.RGBA, width := 2, height := 3,
                   rgb := [(1, 2, 3)], alpha := [4] } }
        encStub "y".data
      = some (encStub { mode := PMode.RGB, width := 2, height := 3,
                        rgb := [(1, 2, 3)], alpha := [] }) :=
  ⟨C9_normalizer.1 { pathExists := fun _ => false, decode := fun _ => none }
      encStub "x".data rfl,
   C9_normalizer.2.2.1
      { pathExists := fun _ => true,
        decode := fun _ =>
          some { mode := PMode.RGBA, width := 2, height := 3,
                 rgb := [(1, 2, 3)], alpha := [4] } }
      encStub "y".data
      { mode := PMode.RGBA, width := 2, height := 3,
        rgb := [(1, 2, 3)], alpha := [4] }
      rfl rfl (Or.inl rfl)⟩

/-- **C10.** Ordinal parsing is a prefix match: for any token whose
lowered form is `image` + digit run `ds` + a remainder not starting
with a digit, `get_image_index` yields `int(ds) - 1` regardless of the
trailing characters, and ordinal resolution of such a token behaves
exactly as for the bare `image<ds>` — the trailing characters (hence
the token's identity as a literal filename) are ignored. -/
theorem C10_prefix_parse (t ds rest : List Char)
    (hl : lowerL t = 'i' :: 'm' :: 'a' :: 'g' :: 'e' :: (ds ++ rest))
    (hne : ds ≠ []) (hds : ∀ c ∈ ds, isDigitC c = true)
    (hrest : rest.takeWhile isDigitC = []) :
    getImageIndex t = (digitsToNat ds : Int) - 1
    ∧ ∀ media : List Path,
        resolveOrdinalTarget media t
          = resolveOrdinalTarget media ('i' :: 'm' :: 'a' :: 'g' :: 'e' :: ds) := by
  have h1 := getImageIndex_decomp t ds rest hl hne hds hrest
  have h2 := getImageIndex_decomp ('i' :: 'm' :: 'a' :: 'g' :: 'e' :: ds) ds []
      (lowerL_image_digits ds hds) hne hds rfl
  refine ⟨h1, fun media => ?_⟩
  simp only [resolveOrdinalTarget, h1, h2]

/-- Witness for C10: `image2.png` and `image10_final` parse as ordinals
2 and 10, and the catalog entry literally named `image2.png` cannot be
referenced by that name (the token resolves as ordinal 2, out of range
for a one-image catalog). -/
theorem C10_prefix_parse_witness :
    getImageIndex "image2.png".data = 1
    ∧ getImageIndex "image10_final".data = 9
    ∧ resolveOrdinalTarget ["word/media/image2.png".data] "image2.png".data
        = none := by
  have h := C10_prefix_parse "image2.png".data ('2' :: [])
      ('.' :: 'p' :: 'n' :: 'g' :: [])
      (by decide) (by decide) (by decide) (by decide)
  refine ⟨h.1.trans (by decide), by decide, ?_⟩
  exact (h.2 ["word/media/image2.png".data]).trans (by decide)

end WordImg
